import Mathlib

/-!
Verification of the ploum LDAP pseudo-ORM (ChloeTigre/ploum) against its
natural-language specification.

The definitions below are a shallow embedding of the Python sources:

* `ctrmisctk/utils.py` : `is_scalar`, `debyte`, `bytify`, `slacker_cacher_decorator`
* `src/ploum/plumbing.py` / `src/ploum/ldap_lib.py` : `ArithmeticList`,
  `LDAPAttribute` (`set_value`, `__add__`, `set_clean`, `get_base_state`),
  `ComposableType.__add__`, `build_properties._set` / `_get`
* `src/ploum/ldap_utils.py` : `build_composedtype` (with the
  `slacker_cacher_decorator` cache)
* `src/ploum/ploum.py` : `PloumObj` (`populate`, `get_old_and_current_state`,
  `mark_clean`, `mark_deleted`) and the record lifecycle.

Python values appearing as attribute values are modelled by `PyV` (scalars)
and `PyObj` (a scalar or a list of scalars); a Python `bytes` object holding
the UTF-8 encoding of a text `s` is modelled as `PyV.bytes s`.

Two points of CPython semantics that the embedding reproduces faithfully
(checked against the interpreter, since they decide several claims):

* `x += y` on an `ArithmeticList` dispatches to the inherited
  `list.__iadd__`, i.e. in-place `extend(iter(y))` — NOT to the custom
  deduplicating `ArithmeticList.__add__`.  Extending with a `str` appends
  its characters one by one; extending with a `list` appends its elements
  verbatim (no dedup, no byte decoding); extending with `bytes` appends
  the integer byte values.
* `ArithmeticList.__init__(it)` ends as `list.__init__(self, set(it))`
  (the preceding loop rebinds a local and its effect is discarded), so the
  constructed list is `set(it)`: the original elements deduplicated, not
  decoded.  CPython set iteration order is unspecified; the model fixes the
  deterministic first-occurrence order as representative, and every claim
  that touches such lists is stated up to set membership.

`ArithmeticList.__add__` (reached through the explicit `+` in
`ComposableType.__add__` and in `may_fields + must_fields`) is
`set(self)` followed by the debyted elements of the other operand that are
not members of `self`.
-/

/-- Scalar Python values used as attribute values: `None`, `str`,
`bytes` (holding the UTF-8 encoding of the given text), `int`. -/
inductive PyV where
  | none
  | str (s : String)
  | bytes (s : String)
  | int (n : Nat)
  deriving DecidableEq, Repr

/-- A Python object in attribute-value position: a scalar or a list of
scalars.  `ctrmisctk.utils.is_scalar` is true exactly on the `scalar`
constructor (str, bytes, None and non-iterables are scalar). -/
inductive PyObj where
  | scalar (v : PyV)
  | list (xs : List PyV)
  deriving DecidableEq, Repr

/-- `ctrmisctk.utils.is_scalar`. -/
def is_scalar : PyObj → Bool
  | .scalar _ => true
  | .list _ => false

/-- `ctrmisctk.utils.debyte` on a scalar: decode bytes to str, otherwise id. -/
def debyteV : PyV → PyV
  | .bytes s => .str s
  | v => v

/-- `ctrmisctk.utils.debyte` on an arbitrary object: only a `bytes` scalar
is decoded; a list is returned unchanged (its elements are not decoded). -/
def debyteObj : PyObj → PyObj
  | .scalar v => .scalar (debyteV v)
  | .list xs => .list xs

/-- `ctrmisctk.utils.bytify` on a scalar: encode str to bytes, otherwise id. -/
def bytify : PyV → PyV
  | .str s => .bytes s
  | v => v

/-- Python truthiness of the objects the code branches on (`if value:`,
`if other:`, `if old_item:`). -/
def pyTruthy : PyObj → Bool
  | .scalar .none => false
  | .scalar (.str s) => s ≠ ""
  | .scalar (.bytes s) => s ≠ ""
  | .scalar (.int n) => n ≠ 0
  | .list xs => xs ≠ []

/-- Exceptions raised by the embedded code.  Python raises `KeyError` in
all three key-lookup situations; distinct constructors record the raise
site: `unknownAttribute` is the explicit
`KeyError("Cannot assign unknown attribute !")` in `populate` (the error the
spec calls `UnknownAttribute`), `keyErrorAttrTypes` is the
`self.attr_types[i]` lookup miss in `populate`, and `keyError` is any other
mapping lookup miss (`self._attrs[low]`, `all_types[i]`, snapshot lookup). -/
inductive PyErr where
  | keyError
  | keyErrorAttrTypes
  | unknownAttribute
  | typeError
  | indexError
  deriving DecidableEq, Repr

/-- `iter(x)` as used by `list.__iadd__` (extend): a list yields its
elements, a str yields its characters as one-character strings, bytes
yield the integer values of the UTF-8 encoding, `None` and `int` raise
`TypeError`. -/
def iterObj : PyObj → Except PyErr (List PyV)
  | .list xs => .ok xs
  | .scalar (.str s) => .ok (s.toList.map (fun c => .str (String.mk [c])))
  | .scalar (.bytes s) => .ok (s.toUTF8.toList.map (fun b => .int b.toNat))
  | .scalar .none => .error .typeError
  | .scalar (.int _) => .error .typeError

/-- Membership-ordered association list lookup (`d[k]` / `d.get(k)`):
first entry with the given key. -/
def afind {κ α : Type} [DecidableEq κ] : List (κ × α) → κ → Option α
  | [], _ => none
  | (k, v) :: m, key => if k = key then some v else afind m key

/-- Python dict assignment `d[k] = v`: replace the value in place if the key
is present, append the pair otherwise (insertion order preserved). -/
def ainsert {κ α : Type} [DecidableEq κ] : List (κ × α) → κ → α → List (κ × α)
  | [], key, v => [(key, v)]
  | (k, w) :: m, key, v =>
      if k = key then (k, v) :: m else (k, w) :: ainsert m key v

/-- Keys of an association list. -/
def akeys {κ α : Type} (m : List (κ × α)) : List κ := m.map Prod.fst

/-- First-occurrence deduplication, the model of Python `set(l)` turned back
into a list (CPython iteration order of a set is unspecified; this fixes a
deterministic representative, and claims about such lists are stated up to
set membership). -/
def pysetAux {α : Type} [DecidableEq α] (seen : List α) : List α → List α
  | [] => []
  | x :: xs => if x ∈ seen then pysetAux seen xs else x :: pysetAux (x :: seen) xs

/-- `list(set(l))` with the representative order of `pysetAux`. -/
def pyset {α : Type} [DecidableEq α] (l : List α) : List α := pysetAux [] l

/-- `ArithmeticList.__add__(self, other)` for a list operand of strings
(the only shape reached from `ComposableType.__add__`): `set(self)`
followed by the elements of `other` not already in `self` (`debyte` is the
identity on `str`).  Membership is tested against the original `self`. -/
def alAddL (a b : List String) : List String :=
  pyset a ++ b.filter (fun x => ¬ (x ∈ a))

/-- A Python class object built by `build_ldapclass` or by
`ComposableType.__add__`.  The `id` field models CPython object identity:
registry classes carry fixed ids and every `__add__` mints a fresh one, so
two values with equal `id` built by this code are the same object. -/
structure PyType where
  id : Nat
  names : List String
  must_fields : List String
  may_fields : List String
  sup_classes : List String
  deriving DecidableEq, Repr

/-- The `all_types` registry passed to `build_composedtype`: class name to
class object. -/
abbrev Registry : Type := List (String × PyType)

/-- `all_types[i]` lookup. -/
def lookupT (reg : Registry) (k : String) : Option PyType :=
  afind reg k

/-- `ComposableType.__add__`: clone the left class and merge every
list-valued field present on both sides with `ArithmeticList.__add__`
(string-valued fields such as `oid` are skipped; `attr_types`, `datadict`
and `obsolete` are not lists and are kept from the left operand).  The
result is a fresh class object (fresh `id`). -/
def typeAdd (fresh : Nat) (t u : PyType) : PyType :=
  { id := fresh
    names := alAddL t.names u.names
    must_fields := alAddL t.must_fields u.must_fields
    may_fields := alAddL t.may_fields u.may_fields
    sup_classes := alAddL t.sup_classes u.sup_classes }

/-- Inner loop of `build_composedtype`:
`for j in typ.sup_classes: if j not in met_types: typ += all_types[j]; met_types.append(j)`.
The iterated list is the value of `typ.sup_classes` when the loop starts
(rebinding `typ` inside the body does not change the iteration), which is
why the walk is one level deep, not transitive. -/
def supLoop (reg : Registry) : PyType → List String → Nat → List String →
    Except PyErr (PyType × List String × Nat)
  | typ, met, ctr, [] => .ok (typ, met, ctr)
  | typ, met, ctr, j :: rest =>
    if j ∈ met then supLoop reg typ met ctr rest
    else
      match lookupT reg j with
      | none => .error .keyError
      | some u => supLoop reg (typeAdd ctr typ u) (met ++ [j]) (ctr + 1) rest

/-- Outer loop of `build_composedtype` over the requested class names.
For the first name the registry object itself becomes the accumulator
(no clone); later names are merged with `+`.  After each merge the
superior walk of `supLoop` runs on the current `sup_classes`, and the
class name is appended to `met_types`. -/
def composeLoop (reg : Registry) :
    Option PyType → List String → Nat → List String →
    Except PyErr (Option PyType × Nat)
  | typ?, _met, ctr, [] => .ok (typ?, ctr)
  | none, met, ctr, i :: rest =>
    match lookupT reg i with
    | none => .error .keyError
    | some u =>
      match supLoop reg u met ctr u.sup_classes with
      | .error e => .error e
      | .ok (typ₂, met₂, ctr₂) => composeLoop reg (some typ₂) (met₂ ++ [i]) ctr₂ rest
  | some t, met, ctr, i :: rest =>
    match lookupT reg i with
    | none => .error .keyError
    | some u =>
      match supLoop reg (typeAdd ctr t u) met (ctr + 1) (typeAdd ctr t u).sup_classes with
      | .error e => .error e
      | .ok (typ₂, met₂, ctr₂) => composeLoop reg (some typ₂) (met₂ ++ [i]) ctr₂ rest

/-- `ldap_utils.build_composedtype(ocs, all_types)` (undecorated core).
`typ` starts as `None` and is returned as such for an empty `ocs`; a
missing registry entry raises `KeyError`.  The counter supplies fresh
identities for the class objects minted by `+`. -/
def build_composedtype (reg : Registry) (ocs : List String) (ctr : Nat) :
    Except PyErr (Option PyType × Nat) :=
  composeLoop reg none [] ctr ocs

/-- Process-wide state of `slacker_cacher_decorator` for
`build_composedtype`: the memo table (keyed by the serialized positional
arguments, order-sensitive) plus the identity counter. -/
structure CState where
  counter : Nat
  cache : List ((List String × Registry) × Option PyType)

/-- The decorated `build_composedtype`: on a cache hit the stored object
itself is returned; on a miss the core runs, and the result is stored and
returned.  The key `repr([f, a, k])` is injective on the arguments, so it
is modelled by the argument pair itself. -/
def build_composedtype_cached (s : CState) (reg : Registry) (ocs : List String) :
    Except PyErr (Option PyType × CState) :=
  match afind s.cache (ocs, reg) with
  | some v => .ok (v, s)
  | none =>
    match build_composedtype reg ocs s.counter with
    | .error e => .error e
    | .ok (res, ctr₂) => .ok (res, ⟨ctr₂, ainsert s.cache (ocs, reg) res⟩)

/-- A `LDAPAttribute` instance (plumbing.py / ldap_lib.py).  The
`single_value` field is the class-level schema property; `dirty` is
`_dirty`; `value` is `_value`; `base_state` is the `_base_state`
attribute, which `__init__` always creates via its `set_value(None)` call
(the `getattr` default in `get_base_state` is unreachable for objects
built by this code).  The aliasing of `_base_state = self._value` followed
by an in-place extend of `_value` in the multi-value branch of `__add__`
is reproduced by storing the extended list in both fields. -/
structure LAttr where
  single_value : Bool
  dirty : Bool
  value : PyObj
  base_state : PyObj
  deriving DecidableEq, Repr

/-- `LDAPAttribute.__init__` with the default `value=None`, i.e.
`self.attr_types[i]()` in `populate`: `_dirty=False; _value=None;
set_value(None)` — which sets `dirty`, records `_base_state=None` and, for
a multi-valued attribute, installs an empty `ArithmeticList`. -/
def attrNew (single : Bool) : LAttr :=
  if single then ⟨true, true, .scalar .none, .scalar .none⟩
  else ⟨false, true, .list [], .scalar .none⟩

/-- `LDAPAttribute.set_clean`. -/
def setClean (a : LAttr) : LAttr := { a with dirty := false }

/-- `LDAPAttribute.get_base_state`. -/
def get_base_state (a : LAttr) : PyObj := a.base_state

/-- `LDAPAttribute.set_value(value)`: records the previous `_value` as
`_base_state`.  Single-valued: a scalar replaces the value, a non-scalar
is logged and dropped (the old value is kept).  Multi-valued: a fresh
empty `ArithmeticList` is installed and, when `value` is truthy,
`self._value += value` extends it with `iter(value)` (the inherited
`list.__iadd__`, no `debyte`, no dedup). -/
def set_value (a : LAttr) (v : PyObj) : Except PyErr LAttr :=
  if a.single_value then
    .ok { a with dirty := true, base_state := a.value
                 value := if is_scalar v then v else a.value }
  else
    if pyTruthy v then
      (iterObj v).map fun ext =>
        { a with dirty := true, base_state := a.value, value := .list ext }
    else .ok { a with dirty := true, base_state := a.value, value := .list [] }

/-- `LDAPAttribute.__add__(self, other)`: records `_base_state = _value`
first.  Single-valued: `_value = debyte(other[0])` for a non-scalar
(IndexError on an empty list) or `debyte(other)` for a scalar.
Multi-valued: when `other` is truthy, `self._value += debyte(other)`
extends the value list in place with `iter(debyte(other))`; because the
extend mutates the very object recorded as `_base_state`, both fields end
up holding the extended list.  The scalar-valued case of a multi-valued
attribute is unreachable for objects built by this code. -/
def attrAdd (a : LAttr) (other : PyObj) : Except PyErr LAttr :=
  if a.single_value then
    match other with
    | .list [] => .error .indexError
    | .list (x :: _) =>
        .ok { a with dirty := true, base_state := a.value, value := .scalar (debyteV x) }
    | .scalar v =>
        .ok { a with dirty := true, base_state := a.value, value := .scalar (debyteV v) }
  else
    if pyTruthy other then
      match a.value with
      | .list xs =>
          (iterObj (debyteObj other)).map fun ext =>
            { a with dirty := true, value := .list (xs ++ ext), base_state := .list (xs ++ ext) }
      | .scalar _ => .error .typeError
    else .ok { a with dirty := true, base_state := a.value }

/-- Python `str.lower()` on the ASCII names this code handles, written
so that it reduces definitionally (character-wise map over the string
data). -/
def pyLower (s : String) : String := String.mk (s.data.map Char.toLower)

/-- `PloumObj.virtual_fields`. -/
def virtual_fields : List String :=
  ["entryDN", "subschemaSubentry", "modifyTimestamp", "modifiersName",
   "creatorsName", "creatorsTimestamp", "hasSubordinates", "entryCSN",
   "createTimestamp", "structuralObjectClass", "entryUUID", "contextCSN"]

/-- A `PloumObj` record bound to its descriptor.  `must_fields`,
`may_fields` and `attr_types` are the class-level data installed by
`build_ldapclass` (`attr_types` maps each exact attribute alias spelling to
its value class, of which only the `single_value` property matters here);
`attrs` is `_attrs` (a dict keyed by lowercased names, insertion-ordered);
`base_state` is `_base_state` (`None` until hydration); `mode` is the
`_mode` attribute that `LDAPHelper.__init__` sets to `"normal"` and
`self_update` toggles. -/
structure PloumRec where
  must_fields : List String
  may_fields : List String
  attr_types : List (String × Bool)
  dn : Option String
  already_exists : Bool
  attrs : List (String × LAttr)
  deleted : Bool
  base_state : Option (List (String × LAttr))
  mode : String
  deriving DecidableEq, Repr

/-- A freshly constructed record (`PloumObj.__init__` without initial
attributes, wrapped by `LDAPHelper.__init__` which sets `_mode`). -/
def newRecord (must may : List String) (atys : List (String × Bool)) : PloumRec :=
  { must_fields := must, may_fields := may, attr_types := atys
    dn := none, already_exists := false, attrs := [], deleted := false
    base_state := none, mode := "normal" }

/-- Loop body of `PloumObj.populate` over `attrs.items()`: skip names that
lowercase into `virtual_fields`; raise the unknown-attribute `KeyError`
when the lowercased name is neither `"objectclass"` nor a lowercased
member of `may_fields + must_fields`; otherwise create the attribute on
first sight via `self.attr_types[i]()` (exact-case lookup, `KeyError` on a
miss), then `self._attrs[low] += j` and `set_clean()`. -/
def populateLoop (must may : List String) (atys : List (String × Bool)) :
    List (String × LAttr) → List (String × PyObj) →
    Except PyErr (List (String × LAttr))
  | m, [] => .ok m
  | m, (i, j) :: rest =>
    if (pyLower i) ∈ virtual_fields.map pyLower then
      populateLoop must may atys m rest
    else if ¬ ((pyLower i) ∈ "objectclass" :: (may ++ must).map pyLower) then
      .error .unknownAttribute
    else
      match afind m (pyLower i) with
      | some a =>
        match attrAdd a j with
        | .error e => .error e
        | .ok a₂ => populateLoop must may atys (ainsert m (pyLower i) (setClean a₂)) rest
      | none =>
        match afind atys i with
        | none => .error .keyErrorAttrTypes
        | some single =>
          match attrAdd (attrNew single) j with
          | .error e => .error e
          | .ok a₂ => populateLoop must may atys (ainsert m (pyLower i) (setClean a₂)) rest

/-- `PloumObj.populate(dn, attrs)`: sets `dn` and `_already_exists`, runs
the loop above over the incoming items, then stores
`_base_state = deepcopy(self._attrs)`.  (On an exception the Python object
is left partially mutated; the model returns the raised error.) -/
def populate (r : PloumRec) (dn : String) (attrs : List (String × PyObj)) :
    Except PyErr PloumRec :=
  (populateLoop r.must_fields r.may_fields r.attr_types r.attrs attrs).map fun m =>
    { r with dn := some dn, already_exists := true, attrs := m, base_state := some m }

/-- The property getter installed by `build_properties`:
`self._attrs.get(i.lower())`. -/
def pget (r : PloumRec) (name : String) : Option LAttr :=
  afind r.attrs (pyLower name)

/-- The property setter `_set` installed by `build_properties`: in
`self_update` mode, `self._attrs[low].set_value(value)`; otherwise
`self._attrs[low] += value` (both raise `KeyError` when the lowercased
name has no entry in `_attrs`).  The `isinstance(value, LDAPAttribute)`
branch is not modelled: the embedded values are plain Python data, never
`LDAPAttribute` instances. -/
def pset (r : PloumRec) (name : String) (value : PyObj) : Except PyErr PloumRec :=
  if r.mode = "self_update" then
    match afind r.attrs (pyLower name) with
    | none => .error .keyError
    | some a =>
      (set_value a value).map fun a₂ => { r with attrs := ainsert r.attrs (pyLower name) a₂ }
  else
    match afind r.attrs (pyLower name) with
    | none => .error .keyError
    | some a =>
      (attrAdd a value).map fun a₂ => { r with attrs := ainsert r.attrs (pyLower name) a₂ }

/-- `PloumObj.mark_deleted`. -/
def mark_deleted (r : PloumRec) : PloumRec := { r with deleted := true }

/-- `PloumObj.mark_clean`. -/
def mark_clean (r : PloumRec) : PloumRec :=
  { r with attrs := r.attrs.map fun p => (p.1, setClean p.2) }

/-- Truthiness of the record-level `_base_state` (`if old_item:`): a
missing snapshot and an empty snapshot dict are both falsy. -/
def baseTruthy : Option (List (String × LAttr)) → Bool
  | none => false
  | some m => m ≠ []

/-- Loop body of `PloumObj.get_old_and_current_state`: for each live
attribute, the old value comes from the snapshot (`old_item[k]._value`,
`KeyError` if absent) when the snapshot is truthy and from the
attribute-level `get_base_state()` otherwise; a scalar old value is
wrapped as `[bytify(old)]`, while a list old value is passed through
unchanged (its elements are NOT bytified); the new value is
`[bytify(v.value)]` for a scalar and `[bytify(a) for a in v.value]` for a
list. -/
def stateLoop (base : Option (List (String × LAttr))) :
    List (String × LAttr) →
    Except PyErr (List (String × List PyV) × List (String × List PyV))
  | [] => .ok ([], [])
  | (k, v) :: rest =>
    match (if baseTruthy base then
            match afind (base.getD []) k with
            | none => .error .keyError
            | some b => .ok b.value
          else .ok (get_base_state v) : Except PyErr PyObj) with
    | .error e => .error e
    | .ok o =>
      match stateLoop base rest with
      | .error e => .error e
      | .ok (olds, news) =>
        .ok ((k, match o with | .scalar s => [bytify s] | .list xs => xs) :: olds,
             (k, match v.value with | .scalar s => [bytify s] | .list xs => xs.map bytify) :: news)

/-- `PloumObj.get_old_and_current_state`. -/
def get_old_and_current_state (r : PloumRec) :
    Except PyErr (List (String × List PyV) × List (String × List PyV)) :=
  stateLoop r.base_state r.attrs

/-- The change-set decision of `save_ldap` (the spec interface
`record.build_changeset()`): kind `"modify"` when the record already
exists, `"create"` otherwise, with the old/new state pair computed by
`get_old_and_current_state` (the modlist encoding itself is delegated to
`ldap.modlist`, an external collaborator). -/
def build_changeset (r : PloumRec) :
    Except PyErr (String × List (String × List PyV) × List (String × List PyV)) :=
  (get_old_and_current_state r).map fun st =>
    (if r.already_exists then "modify" else "create", st)

/-- Decidable check used to state the depth-one superior hypothesis: the
class named `s` is in the registry and declares no superiors of its own. -/
def supEmptyAt (reg : Registry) (s : String) : Bool :=
  match lookupT reg s with
  | some u => u.sup_classes.isEmpty
  | none => false

/-- An incoming attribute name that `populate` rejects: case-insensitively
outside the virtual-field exemption list, and outside
`("objectclass",) + tuple(a.lower() for a in may_fields + must_fields)`. -/
def badName (must may : List String) (i : String) : Prop :=
  ¬ ((pyLower i) ∈ virtual_fields.map pyLower) ∧
  ¬ ((pyLower i) ∈ "objectclass" :: (may ++ must).map pyLower)

instance (must may : List String) (i : String) : Decidable (badName must may i) := by
  unfold badName; infer_instance

/-- Whether a scalar is a byte string. -/
def isBytesV : PyV → Bool
  | .bytes _ => true
  | _ => false

/-- The raw value shape delivered by an LDAP search: a nonempty list of
byte strings. -/
def isByteList : PyObj → Prop
  | .list xs => xs ≠ [] ∧ ∀ v ∈ xs, isBytesV v = true
  | .scalar _ => False

instance (j : PyObj) : Decidable (isByteList j) := by
  cases j <;> . unfold isByteList; infer_instance

/-- Normal form of a hydrated attribute: a single-valued attribute holds a
decoded string scalar, a multi-valued one holds a list of byte strings. -/
def goodAttr (a : LAttr) : Prop :=
  if a.single_value then ∃ s, a.value = PyObj.scalar (PyV.str s)
  else ∃ bs, a.value = PyObj.list bs ∧ ∀ v ∈ bs, isBytesV v = true

/-- must-set of a composition result (empty for an error or a `None`
result); used to state concrete composition facts compactly. -/
def mustOfResult : Except PyErr (Option PyType × Nat) → List String
  | .ok (some t, _) => t.must_fields
  | _ => []

/-- Whether an embedded computation succeeded. -/
def isOkB {α : Type} : Except PyErr α → Bool
  | .ok _ => true
  | .error _ => false

/-- Registry for the order-dependence counterexample: `a` has superior
`s`, `s` has superior `t`, `b` and `t` are plain classes. -/
def regABST : Registry :=
  [("a", ⟨1, ["a"], ["amust"], [], ["s"]⟩),
   ("b", ⟨2, ["b"], ["bmust"], [], []⟩),
   ("s", ⟨3, ["s"], ["smust"], [], ["t"]⟩),
   ("t", ⟨4, ["t"], ["tmust"], [], []⟩)]

/-- Registry for the transitivity counterexample: a chain
`a -> b -> c` of superior declarations. -/
def regChain : Registry :=
  [("a", ⟨1, ["a"], ["ma"], [], ["b"]⟩),
   ("b", ⟨2, ["b"], ["mb"], [], ["c"]⟩),
   ("c", ⟨3, ["c"], ["mc"], [], []⟩)]

/-- Depth-one registry for the order-independence witness: the only
superior `s` has no superiors of its own. -/
def regFlat : Registry :=
  [("a", ⟨1, ["a"], ["ma"], ["maya"], ["s"]⟩),
   ("b", ⟨2, ["b"], ["mb"], [], []⟩),
   ("s", ⟨3, ["s"], ["ms"], [], []⟩)]

/-- The spec scenario descriptor: class person with must={cn,sn},
may={description}, all attributes multi-valued. -/
def personRec : PloumRec :=
  newRecord ["cn", "sn"] ["description"]
    [("cn", false), ("sn", false), ("description", false)]

/-- A one-attribute descriptor with a multi-valued `member` attribute. -/
def memberRec : PloumRec :=
  newRecord ["member"] [] [("member", false)]

/-- `memberRec` hydrated with `{"member": [b"m0"]}` — the record value
`populate` produces for that input. -/
def memberHydrated : PloumRec :=
  { must_fields := ["member"], may_fields := [], attr_types := [("member", false)]
    dn := some "dn", already_exists := true
    attrs := [("member", ⟨false, false, .list [.bytes "m0"], .list [.bytes "m0"]⟩)]
    deleted := false
    base_state := some [("member", ⟨false, false, .list [.bytes "m0"], .list [.bytes "m0"]⟩)]
    mode := "normal" }

/-- Descriptor whose schema does not list `objectClass` among must/may
(as usual), used to exercise the `objectclass` exemption in `populate`. -/
def ocRec : PloumRec :=
  newRecord ["cn"] [] [("objectClass", false), ("cn", false)]

/-- Descriptor used for the case-mismatch witness. -/
def cnRec : PloumRec := newRecord ["cn"] [] [("cn", false)]


theorem akeys_nil {κ α : Type} : akeys ([] : List (κ × α)) = [] := rfl

theorem akeys_cons {κ α : Type} (k : κ) (v : α) (m : List (κ × α)) :
    akeys ((k, v) :: m) = k :: akeys m := rfl

theorem afind_ainsert_self {κ α : Type} [DecidableEq κ] (m : List (κ × α)) (k : κ) (v : α) :
    afind (ainsert m k v) k = some v := by
  induction m with
  | nil => simp [ainsert, afind]
  | cons p m ih =>
    obtain ⟨k₀, w⟩ := p
    by_cases h : k₀ = k
    · simp [ainsert, afind, h]
    · simp [ainsert, afind, h, ih]

theorem afind_ainsert_ne {κ α : Type} [DecidableEq κ] (m : List (κ × α)) (k k₂ : κ) (v : α)
    (hne : k ≠ k₂) : afind (ainsert m k v) k₂ = afind m k₂ := by
  induction m with
  | nil => simp [ainsert, afind, hne]
  | cons p m ih =>
    obtain ⟨k₀, w⟩ := p
    by_cases h : k₀ = k
    · subst h
      simp [ainsert, afind, hne]
    · by_cases h₂ : k₀ = k₂
      · subst h₂
        simp [ainsert, afind, h]
      · simp [ainsert, afind, h, h₂, ih]

theorem mem_ainsert {κ α : Type} [DecidableEq κ] (m : List (κ × α)) (k : κ) (v : α)
    (p : κ × α) (hp : p ∈ ainsert m k v) : p = (k, v) ∨ p ∈ m := by
  induction m with
  | nil =>
    simp only [ainsert, List.mem_singleton] at hp
    exact Or.inl hp
  | cons q m ih =>
    obtain ⟨k₀, w⟩ := q
    by_cases h : k₀ = k
    · subst h
      simp only [ainsert, if_pos rfl] at hp
      rcases List.mem_cons.mp hp with h1 | h1
      · exact Or.inl h1
      · exact Or.inr (List.mem_cons_of_mem _ h1)
    · simp only [ainsert, if_neg h] at hp
      rcases List.mem_cons.mp hp with h1 | h1
      · exact Or.inr (by simp [h1])
      · rcases ih h1 with h2 | h2
        · exact Or.inl h2
        · exact Or.inr (List.mem_cons_of_mem _ h2)

theorem akeys_ainsert {κ α : Type} [DecidableEq κ] (m : List (κ × α)) (k : κ) (v : α) :
    akeys (ainsert m k v) = if k ∈ akeys m then akeys m else akeys m ++ [k] := by
  induction m with
  | nil => simp [ainsert, akeys]
  | cons p m ih =>
    obtain ⟨k₀, w⟩ := p
    by_cases h : k₀ = k
    · subst h
      simp [ainsert, akeys_cons]
    · have hne : ¬ k = k₀ := fun hh => h hh.symm
      simp only [ainsert, if_neg h, akeys_cons]
      rw [ih]
      by_cases hm : k ∈ akeys m
      · rw [if_pos hm, if_pos (by simp [akeys_cons, hm])]
      · rw [if_neg hm, if_neg (by simp [akeys_cons, hne, hm])]
        simp

theorem akeys_nodup_ainsert {κ α : Type} [DecidableEq κ] (m : List (κ × α)) (k : κ) (v : α)
    (hm : (akeys m).Nodup) : (akeys (ainsert m k v)).Nodup := by
  rw [akeys_ainsert]
  by_cases h : k ∈ akeys m
  · simpa [h]
  · simp only [h, if_false]
    simpa [List.nodup_append] using ⟨hm, h⟩

theorem afind_of_mem {κ α : Type} [DecidableEq κ] (m : List (κ × α))
    (hm : (akeys m).Nodup) (k : κ) (v : α) (hkv : (k, v) ∈ m) : afind m k = some v := by
  induction m with
  | nil => simp at hkv
  | cons p m ih =>
    obtain ⟨k₀, w⟩ := p
    rw [akeys_cons, List.nodup_cons] at hm
    rcases List.mem_cons.mp hkv with h1 | h1
    · cases h1
      simp [afind]
    · have hk : ¬ k₀ = k := by
        intro hh
        subst hh
        exact hm.1 (List.mem_map_of_mem Prod.fst h1)
      show (if k₀ = k then some w else afind m k) = some v
      rw [if_neg hk]
      exact ih hm.2 h1

theorem afind_some_mem {κ α : Type} [DecidableEq κ] (m : List (κ × α)) (k : κ) (v : α)
    (h : afind m k = some v) : (k, v) ∈ m := by
  induction m with
  | nil => simp [afind] at h
  | cons p m ih =>
    obtain ⟨k₀, w⟩ := p
    by_cases hk : k₀ = k
    · subst hk
      have hw : w = v := by simpa [afind] using h
      subst hw
      exact List.mem_cons_self _ _
    · simp only [afind, if_neg hk] at h
      exact List.mem_cons_of_mem _ (ih h)

theorem pysetAux_mem {α : Type} [DecidableEq α] (l : List α) :
    ∀ (seen : List α) (x : α), x ∈ pysetAux seen l ↔ x ∈ l ∧ ¬ x ∈ seen := by
  induction l with
  | nil => intro seen x; simp [pysetAux]
  | cons y l ih =>
    intro seen x
    by_cases hy : y ∈ seen
    · rw [show pysetAux seen (y :: l) = pysetAux seen l from by simp [pysetAux, hy], ih]
      constructor
      · rintro ⟨h1, h2⟩
        exact ⟨List.mem_cons_of_mem _ h1, h2⟩
      · rintro ⟨h1, h2⟩
        rcases List.mem_cons.mp h1 with h3 | h3
        · exact absurd (h3 ▸ hy) h2
        · exact ⟨h3, h2⟩
    · rw [show pysetAux seen (y :: l) = y :: pysetAux (y :: seen) l from by simp [pysetAux, hy]]
      constructor
      · intro hmem
        rcases List.mem_cons.mp hmem with h3 | h3
        · subst h3
          exact ⟨List.mem_cons_self _ _, hy⟩
        · obtain ⟨h4, h5⟩ := (ih _ _).mp h3
          exact ⟨List.mem_cons_of_mem _ h4, fun hh => h5 (List.mem_cons_of_mem _ hh)⟩
      · rintro ⟨h1, h2⟩
        by_cases hx : x = y
        · subst hx
          exact List.mem_cons_self _ _
        · rcases List.mem_cons.mp h1 with h3 | h3
          · exact absurd h3 hx
          · refine List.mem_cons_of_mem _ ((ih _ _).mpr ⟨h3, fun hh => ?_⟩)
            rcases List.mem_cons.mp hh with h6 | h6
            · exact hx h6
            · exact h2 h6

theorem pyset_mem {α : Type} [DecidableEq α] (l : List α) (x : α) :
    x ∈ pyset l ↔ x ∈ l := by
  simp [pyset, pysetAux_mem]

theorem pysetAux_nodup {α : Type} [DecidableEq α] (l : List α) :
    ∀ seen : List α, (pysetAux seen l).Nodup := by
  induction l with
  | nil => intro seen; simp [pysetAux]
  | cons y l ih =>
    intro seen
    by_cases hy : y ∈ seen
    · simpa [pysetAux, hy] using ih seen
    · rw [show pysetAux seen (y :: l) = y :: pysetAux (y :: seen) l from by simp [pysetAux, hy]]
      rw [List.nodup_cons]
      refine ⟨fun hmem => ?_, ih _⟩
      exact ((pysetAux_mem l _ y).mp hmem).2 (List.mem_cons_self _ _)

theorem pyset_nodup {α : Type} [DecidableEq α] (l : List α) : (pyset l).Nodup :=
  pysetAux_nodup l []

theorem alAddL_mem (a b : List String) (x : String) :
    x ∈ alAddL a b ↔ x ∈ a ∨ x ∈ b := by
  unfold alAddL
  rw [List.mem_append, pyset_mem]
  constructor
  · rintro (h | h)
    · exact Or.inl h
    · exact Or.inr (List.mem_of_mem_filter h)
  · rintro (h | h)
    · exact Or.inl h
    · by_cases hx : x ∈ a
      · exact Or.inl hx
      · refine Or.inr (List.mem_filter.mpr ⟨h, ?_⟩)
        simp [hx]

theorem alAddL_nodup (a b : List String) (hb : b.Nodup) : (alAddL a b).Nodup := by
  unfold alAddL
  rw [List.nodup_append]
  refine ⟨pyset_nodup a, hb.filter _, ?_⟩
  intro x hx hfx
  have h1 : x ∈ a := (pyset_mem a x).mp hx
  have h2 := (List.mem_filter.mp hfx).2
  simp [h1] at h2

theorem supLoop_field (reg : Registry) (f : PyType → List String)
    (hf : ∀ c t u, f (typeAdd c t u) = alAddL (f t) (f u)) :
    ∀ (sups : List String) (typ : PyType) (met : List String) (ctr : Nat)
      (T : PyType) (M : List String) (C : Nat),
      supLoop reg typ met ctr sups = .ok (T, M, C) →
      ∀ x, x ∈ f T ↔ x ∈ f typ ∨
        ∃ j, j ∈ sups ∧ ¬ j ∈ met ∧ ∃ u, lookupT reg j = some u ∧ x ∈ f u := by
  intro sups
  induction sups with
  | nil =>
    intro typ met ctr T M C h x
    simp only [supLoop, Except.ok.injEq, Prod.mk.injEq] at h
    obtain ⟨h1, h2, h3⟩ := h
    subst h1
    simp
  | cons j rest ih =>
    intro typ met ctr T M C h x
    by_cases hj : j ∈ met
    · rw [show supLoop reg typ met ctr (j :: rest) = supLoop reg typ met ctr rest from by
        simp [supLoop, hj]] at h
      rw [ih typ met ctr T M C h x]
      constructor
      · rintro (h1 | ⟨j₂, hj₂, hm, hu⟩)
        · exact Or.inl h1
        · exact Or.inr ⟨j₂, List.mem_cons_of_mem _ hj₂, hm, hu⟩
      · rintro (h1 | ⟨j₂, hj₂, hm, hu⟩)
        · exact Or.inl h1
        · rcases List.mem_cons.mp hj₂ with h2 | h2
          · exact absurd (h2 ▸ hj) hm
          · exact Or.inr ⟨j₂, h2, hm, hu⟩
    · rcases hlook : lookupT reg j with _ | u
      · rw [show supLoop reg typ met ctr (j :: rest) = .error .keyError from by
          simp [supLoop, hj, hlook]] at h
        cases h
      · rw [show supLoop reg typ met ctr (j :: rest)
            = supLoop reg (typeAdd ctr typ u) (met ++ [j]) (ctr + 1) rest from by
          simp [supLoop, hj, hlook]] at h
        rw [ih _ _ _ T M C h x, hf, alAddL_mem]
        constructor
        · rintro ((h1 | h1) | ⟨j₂, hj₂, hm, hu⟩)
          · exact Or.inl h1
          · exact Or.inr ⟨j, List.mem_cons_self _ _, hj, u, hlook, h1⟩
          · refine Or.inr ⟨j₂, List.mem_cons_of_mem _ hj₂, fun hh => hm ?_, hu⟩
            exact List.mem_append.mpr (Or.inl hh)
        · rintro (h1 | ⟨j₂, hj₂, hm, u₂, hu₂, hx₂⟩)
          · exact Or.inl (Or.inl h1)
          · by_cases hjj : j₂ = j
            · subst hjj
              rw [hlook] at hu₂
              cases hu₂
              exact Or.inl (Or.inr hx₂)
            · rcases List.mem_cons.mp hj₂ with h2 | h2
              · exact absurd h2 hjj
              · refine Or.inr ⟨j₂, h2, fun hh => ?_, u₂, hu₂, hx₂⟩
                rcases List.mem_append.mp hh with h3 | h3
                · exact hm h3
                · exact hjj (by simpa using h3)

theorem supLoop_met (reg : Registry) :
    ∀ (sups : List String) (typ : PyType) (met : List String) (ctr : Nat)
      (T : PyType) (M : List String) (C : Nat),
      supLoop reg typ met ctr sups = .ok (T, M, C) →
      ∀ x, x ∈ M ↔ x ∈ met ∨ x ∈ sups := by
  intro sups
  induction sups with
  | nil =>
    intro typ met ctr T M C h x
    simp only [supLoop, Except.ok.injEq, Prod.mk.injEq] at h
    obtain ⟨h1, h2, h3⟩ := h
    subst h2
    simp
  | cons j rest ih =>
    intro typ met ctr T M C h x
    by_cases hj : j ∈ met
    · rw [show supLoop reg typ met ctr (j :: rest) = supLoop reg typ met ctr rest from by
        simp [supLoop, hj]] at h
      rw [ih typ met ctr T M C h x]
      constructor
      · rintro (h1 | h1)
        · exact Or.inl h1
        · exact Or.inr (List.mem_cons_of_mem _ h1)
      · rintro (h1 | h1)
        · exact Or.inl h1
        · rcases List.mem_cons.mp h1 with h2 | h2
          · exact Or.inl (h2 ▸ hj)
          · exact Or.inr h2
    · rcases hlook : lookupT reg j with _ | u
      · rw [show supLoop reg typ met ctr (j :: rest) = .error .keyError from by
          simp [supLoop, hj, hlook]] at h
        cases h
      · rw [show supLoop reg typ met ctr (j :: rest)
            = supLoop reg (typeAdd ctr typ u) (met ++ [j]) (ctr + 1) rest from by
          simp [supLoop, hj, hlook]] at h
        rw [ih _ _ _ T M C h x]
        simp only [List.mem_append, List.mem_singleton, List.mem_cons]
        tauto

theorem supLoop_nodup (reg : Registry) (f : PyType → List String)
    (hf : ∀ c t u, f (typeAdd c t u) = alAddL (f t) (f u))
    (hreg : ∀ p ∈ reg, (f p.2).Nodup) :
    ∀ (sups : List String) (typ : PyType) (met : List String) (ctr : Nat)
      (T : PyType) (M : List String) (C : Nat),
      supLoop reg typ met ctr sups = .ok (T, M, C) →
      (f typ).Nodup → (f T).Nodup := by
  intro sups
  induction sups with
  | nil =>
    intro typ met ctr T M C h htyp
    simp only [supLoop, Except.ok.injEq, Prod.mk.injEq] at h
    obtain ⟨h1, h2, h3⟩ := h
    subst h1
    exact htyp
  | cons j rest ih =>
    intro typ met ctr T M C h htyp
    by_cases hj : j ∈ met
    · rw [show supLoop reg typ met ctr (j :: rest) = supLoop reg typ met ctr rest from by
        simp [supLoop, hj]] at h
      exact ih typ met ctr T M C h htyp
    · rcases hlook : lookupT reg j with _ | u
      · rw [show supLoop reg typ met ctr (j :: rest) = .error .keyError from by
          simp [supLoop, hj, hlook]] at h
        cases h
      · rw [show supLoop reg typ met ctr (j :: rest)
            = supLoop reg (typeAdd ctr typ u) (met ++ [j]) (ctr + 1) rest from by
          simp [supLoop, hj, hlook]] at h
        refine ih _ _ _ T M C h ?_
        rw [hf]
        exact alAddL_nodup _ _ (hreg (j, u) (afind_some_mem reg j u hlook))

theorem supEmptyAt_spec (reg : Registry) (s : String) (u : PyType)
    (h : supEmptyAt reg s = true) (hu : lookupT reg s = some u) : u.sup_classes = [] := by
  unfold supEmptyAt at h
  rw [hu] at h
  simpa using h

theorem composePair_field (reg : Registry) (f : PyType → List String)
    (hf : ∀ c t u, f (typeAdd c t u) = alAddL (f t) (f u))
    (a b : String) (ta tb t : PyType) (c c₂ : Nat)
    (ha : lookupT reg a = some ta) (hb : lookupT reg b = some tb)
    (hsup : ∀ s ∈ ta.sup_classes ++ tb.sup_classes, supEmptyAt reg s = true)
    (h : build_composedtype reg [a, b] c = .ok (some t, c₂)) :
    ∀ x, x ∈ f t ↔
      x ∈ f ta ∨ x ∈ f tb ∨
      ∃ j, (j ∈ ta.sup_classes ∨ j ∈ tb.sup_classes) ∧
        ∃ u, lookupT reg j = some u ∧ x ∈ f u := by
  unfold build_composedtype at h
  rw [show composeLoop reg none [] c [a, b]
      = (match supLoop reg ta [] c ta.sup_classes with
         | .error e => .error e
         | .ok (typ₂, met₂, ctr₂) => composeLoop reg (some typ₂) (met₂ ++ [a]) ctr₂ [b]) from by
    simp [composeLoop, ha]] at h
  rcases h1 : supLoop reg ta [] c ta.sup_classes with e | ⟨T₁, M₁, c₁⟩
  · rw [h1] at h
    cases h
  rw [h1] at h
  simp only at h
  rw [show composeLoop reg (some T₁) (M₁ ++ [a]) c₁ [b]
      = (match supLoop reg (typeAdd c₁ T₁ tb) (M₁ ++ [a]) (c₁ + 1)
            (typeAdd c₁ T₁ tb).sup_classes with
         | .error e => .error e
         | .ok (typ₂, met₂, ctr₂) => composeLoop reg (some typ₂) (met₂ ++ [b]) ctr₂ []) from by
    simp [composeLoop, hb]] at h
  rcases h2 : supLoop reg (typeAdd c₁ T₁ tb) (M₁ ++ [a]) (c₁ + 1)
      (typeAdd c₁ T₁ tb).sup_classes with e | ⟨T₂, M₂, c₃⟩
  · rw [h2] at h
    cases h
  rw [h2] at h
  simp only [composeLoop, Except.ok.injEq, Prod.mk.injEq, Option.some.injEq] at h
  obtain ⟨hT, hc⟩ := h
  subst hT
  have hA := supLoop_field reg f hf ta.sup_classes ta [] c T₁ M₁ c₁ h1
  have hAsup := supLoop_field reg (fun t => t.sup_classes) (fun _ _ _ => rfl)
      ta.sup_classes ta [] c T₁ M₁ c₁ h1
  have hAmet := supLoop_met reg ta.sup_classes ta [] c T₁ M₁ c₁ h1
  have hT₁sup : ∀ x, x ∈ T₁.sup_classes ↔ x ∈ ta.sup_classes := by
    intro x
    rw [hAsup x]
    constructor
    · rintro (h3 | ⟨j, hj, _hm, u, hu, hx⟩)
      · exact h3
      · simp only at hx
        rw [supEmptyAt_spec reg j u
          (hsup j (List.mem_append.mpr (Or.inl hj))) hu] at hx
        simp at hx
    · intro h3
      exact Or.inl h3
  have hM₁ : ∀ x, x ∈ M₁ ↔ x ∈ ta.sup_classes := by
    intro x
    rw [hAmet x]
    simp
  have hB := supLoop_field reg f hf (typeAdd c₁ T₁ tb).sup_classes
      (typeAdd c₁ T₁ tb) (M₁ ++ [a]) (c₁ + 1) T₂ M₂ c₃ h2
  intro x
  rw [hB x, hf, alAddL_mem, hA x]
  have hsupmem : ∀ j, j ∈ (typeAdd c₁ T₁ tb).sup_classes ↔
      j ∈ ta.sup_classes ∨ j ∈ tb.sup_classes := by
    intro j
    rw [show (typeAdd c₁ T₁ tb).sup_classes = alAddL T₁.sup_classes tb.sup_classes from rfl,
      alAddL_mem, hT₁sup j]
  constructor
  · rintro (((h3 | ⟨j, hj, _hm, u, hu, hx⟩) | h3) | ⟨j, hj, hm, u, hu, hx⟩)
    · exact Or.inl h3
    · exact Or.inr (Or.inr ⟨j, Or.inl hj, u, hu, hx⟩)
    · exact Or.inr (Or.inl h3)
    · exact Or.inr (Or.inr ⟨j, (hsupmem j).mp hj, u, hu, hx⟩)
  · rintro (h3 | h3 | ⟨j, hj, u, hu, hx⟩)
    · exact Or.inl (Or.inl (Or.inl h3))
    · exact Or.inl (Or.inr h3)
    · by_cases hja : j ∈ ta.sup_classes
      · exact Or.inl (Or.inl (Or.inr ⟨j, hja, by simp, u, hu, hx⟩))
      · have hjb : j ∈ tb.sup_classes := by
          rcases hj with h4 | h4
          · exact absurd h4 hja
          · exact h4
        by_cases hjaa : j = a
        · subst hjaa
          rw [ha] at hu
          cases hu
          exact Or.inl (Or.inl (Or.inl hx))
        · refine Or.inr ⟨j, (hsupmem j).mpr (Or.inr hjb), fun hmm => ?_, u, hu, hx⟩
          rcases List.mem_append.mp hmm with h4 | h4
          · exact hja ((hM₁ j).mp h4)
          · exact hjaa (by simpa using h4)

theorem composeSingle_field (reg : Registry) (f : PyType → List String)
    (hf : ∀ c t u, f (typeAdd c t u) = alAddL (f t) (f u))
    (a : String) (ta t : PyType) (c c₂ : Nat)
    (ha : lookupT reg a = some ta)
    (h : build_composedtype reg [a] c = .ok (some t, c₂)) :
    ∀ x, x ∈ f t ↔ x ∈ f ta ∨
      ∃ j, j ∈ ta.sup_classes ∧ ∃ u, lookupT reg j = some u ∧ x ∈ f u := by
  unfold build_composedtype at h
  rw [show composeLoop reg none [] c [a]
      = (match supLoop reg ta [] c ta.sup_classes with
         | .error e => .error e
         | .ok (typ₂, met₂, ctr₂) => composeLoop reg (some typ₂) (met₂ ++ [a]) ctr₂ []) from by
    simp [composeLoop, ha]] at h
  rcases h1 : supLoop reg ta [] c ta.sup_classes with e | ⟨T₁, M₁, c₁⟩
  · rw [h1] at h
    cases h
  rw [h1] at h
  simp only [composeLoop, Except.ok.injEq, Prod.mk.injEq, Option.some.injEq] at h
  obtain ⟨hT, _hc⟩ := h
  subst hT
  intro x
  rw [supLoop_field reg f hf ta.sup_classes ta [] c T₁ M₁ c₁ h1 x]
  simp

theorem composeSingle_nodup (reg : Registry)
    (hreg : ∀ p ∈ reg, p.2.must_fields.Nodup)
    (a : String) (ta t : PyType) (c c₂ : Nat)
    (ha : lookupT reg a = some ta)
    (h : build_composedtype reg [a] c = .ok (some t, c₂)) :
    t.must_fields.Nodup := by
  unfold build_composedtype at h
  rw [show composeLoop reg none [] c [a]
      = (match supLoop reg ta [] c ta.sup_classes with
         | .error e => .error e
         | .ok (typ₂, met₂, ctr₂) => composeLoop reg (some typ₂) (met₂ ++ [a]) ctr₂ []) from by
    simp [composeLoop, ha]] at h
  rcases h1 : supLoop reg ta [] c ta.sup_classes with e | ⟨T₁, M₁, c₁⟩
  · rw [h1] at h
    cases h
  rw [h1] at h
  simp only [composeLoop, Except.ok.injEq, Prod.mk.injEq, Option.some.injEq] at h
  obtain ⟨hT, _hc⟩ := h
  subst hT
  exact supLoop_nodup reg (fun t => t.must_fields) (fun _ _ _ => rfl) hreg
    ta.sup_classes ta [] c T₁ M₁ c₁ h1
    (hreg (a, ta) (afind_some_mem reg a ta ha))

theorem pairMemSymm (reg : Registry) (f : PyType → List String) (ta tb : PyType) (x : String) :
    (x ∈ f ta ∨ x ∈ f tb ∨
      ∃ j, (j ∈ ta.sup_classes ∨ j ∈ tb.sup_classes) ∧
        ∃ u, lookupT reg j = some u ∧ x ∈ f u) ↔
    (x ∈ f tb ∨ x ∈ f ta ∨
      ∃ j, (j ∈ tb.sup_classes ∨ j ∈ ta.sup_classes) ∧
        ∃ u, lookupT reg j = some u ∧ x ∈ f u) := by
  constructor <;>
    · rintro (h | h | ⟨j, hj, hu⟩)
      · exact Or.inr (Or.inl h)
      · exact Or.inl h
      · exact Or.inr (Or.inr ⟨j, Or.symm hj, hu⟩)

/-- C4 (amended): composing `["a","b"]` and `["b","a"]` yields descriptors
with the same must/may/name sets, provided every superior that the two
classes declare has no superiors of its own (a one-level superior
hierarchy).  Without that proviso the merge is order dependent, because
the superior walk after each class only iterates the superior list as it
stood when the walk started, so superiors-of-superiors surface only during
a later class iteration (see the counterexample). -/
theorem C4_order_independent_one_level (reg : Registry) (a b : String)
    (ta tb t₁ t₂ : PyType) (c d c₂ d₂ : Nat)
    (ha : lookupT reg a = some ta) (hb : lookupT reg b = some tb)
    (hsup : ∀ s ∈ ta.sup_classes ++ tb.sup_classes, supEmptyAt reg s = true)
    (h₁ : build_composedtype reg [a, b] c = .ok (some t₁, c₂))
    (h₂ : build_composedtype reg [b, a] d = .ok (some t₂, d₂)) :
    (∀ x, x ∈ t₁.must_fields ↔ x ∈ t₂.must_fields) ∧
    (∀ x, x ∈ t₁.may_fields ↔ x ∈ t₂.may_fields) ∧
    (∀ x, x ∈ t₁.names ↔ x ∈ t₂.names) := by
  have hsup₂ : ∀ s ∈ tb.sup_classes ++ ta.sup_classes, supEmptyAt reg s = true := by
    intro s hs
    rcases List.mem_append.mp hs with h | h
    · exact hsup s (List.mem_append.mpr (Or.inr h))
    · exact hsup s (List.mem_append.mpr (Or.inl h))
  refine ⟨fun x => ?_, fun x => ?_, fun x => ?_⟩
  · exact (composePair_field reg (fun t => t.must_fields) (fun _ _ _ => rfl)
        a b ta tb t₁ c c₂ ha hb hsup h₁ x).trans
      ((pairMemSymm reg (fun t => t.must_fields) ta tb x).trans
        (composePair_field reg (fun t => t.must_fields) (fun _ _ _ => rfl)
          b a tb ta t₂ d d₂ hb ha hsup₂ h₂ x).symm)
  · exact (composePair_field reg (fun t => t.may_fields) (fun _ _ _ => rfl)
        a b ta tb t₁ c c₂ ha hb hsup h₁ x).trans
      ((pairMemSymm reg (fun t => t.may_fields) ta tb x).trans
        (composePair_field reg (fun t => t.may_fields) (fun _ _ _ => rfl)
          b a tb ta t₂ d d₂ hb ha hsup₂ h₂ x).symm)
  · exact (composePair_field reg (fun t => t.names) (fun _ _ _ => rfl)
        a b ta tb t₁ c c₂ ha hb hsup h₁ x).trans
      ((pairMemSymm reg (fun t => t.names) ta tb x).trans
        (composePair_field reg (fun t => t.names) (fun _ _ _ => rfl)
          b a tb ta t₂ d d₂ hb ha hsup₂ h₂ x).symm)

/-- C4 (counterexample): with registry `regABST` (`a` has superior `s`,
`s` has superior `t`, `b` is plain) the composed must sets differ between
the two orders: `tmust` is reached in `["a","b"]` (the accumulated
superior list re-examined while processing `b` now contains `t`) but not
in `["b","a"]`, refuting the claim that the merge is order independent
for every pair of registry classes. -/
theorem C4_order_dependent_composition :
    "tmust" ∈ mustOfResult (build_composedtype regABST ["a", "b"] 100) ∧
    ¬ "tmust" ∈ mustOfResult (build_composedtype regABST ["b", "a"] 100) := by
  decide

/-- C5 (amended): for a single-class composition the builder merges the
class and then exactly the direct superiors that the registry class declares
(each at most once, via the `met_types` seen-list): the must set of the
result is the union of the must set of the class and the must sets of its
direct superiors — superiors of superiors are not walked during this pass
(the iteration snapshot of `typ.sup_classes` predates the merges).  The
resulting must list is duplicate-free whenever every registry must list
is.  Termination is structural: each loop iterates a finite list once. -/
theorem C5_direct_superiors_only (reg : Registry) (a : String) (ta t : PyType) (c c₂ : Nat)
    (ha : lookupT reg a = some ta)
    (h : build_composedtype reg [a] c = .ok (some t, c₂)) :
    (∀ x, x ∈ t.must_fields ↔ x ∈ ta.must_fields ∨
      ∃ j, j ∈ ta.sup_classes ∧ ∃ u, lookupT reg j = some u ∧ x ∈ u.must_fields) ∧
    ((∀ p ∈ reg, p.2.must_fields.Nodup) → t.must_fields.Nodup) := by
  constructor
  · exact composeSingle_field reg (fun t => t.must_fields) (fun _ _ _ => rfl)
      a ta t c c₂ ha h
  · intro hreg
    exact composeSingle_nodup reg hreg a ta t c c₂ ha h

/-- C5 (counterexample): in the chain registry (`a` declares superior `b`,
`b` declares superior `c`), composing `["a"]` merges the must set of `b`
but not that of `c`, so the walk is not transitive: superiors of superiors are not
included. -/
theorem C5_superior_walk_not_transitive :
    "mb" ∈ mustOfResult (build_composedtype regChain ["a"] 0) ∧
    ¬ "mc" ∈ mustOfResult (build_composedtype regChain ["a"] 0) := by
  decide

/-- C6 (amended): the memo key of `slacker_cacher_decorator` is the
order-sensitive serialization of the positional arguments, so a repeated
call with the *same ordered* class-name sequence returns the very same
stored descriptor object (and leaves the cache state unchanged);
differently ordered sequences over the same name set are distinct keys and
may return distinct objects (see the counterexample). -/
theorem C6_same_sequence_same_object (s : CState) (reg : Registry) (ocs : List String)
    (res : Option PyType) (s₂ : CState)
    (h : build_composedtype_cached s reg ocs = .ok (res, s₂)) :
    build_composedtype_cached s₂ reg ocs = .ok (res, s₂) := by
  unfold build_composedtype_cached at h ⊢
  rcases h0 : afind s.cache (ocs, reg) with _ | v
  · rw [h0] at h
    rcases hb : build_composedtype reg ocs s.counter with e | ⟨r₀, ctr₂⟩
    · rw [hb] at h
      cases h
    · rw [hb] at h
      simp only [Except.ok.injEq, Prod.mk.injEq] at h
      obtain ⟨h1, h2⟩ := h
      subst h1
      subst h2
      rw [show afind (CState.mk ctr₂ (ainsert s.cache (ocs, reg) r₀)).cache (ocs, reg)
          = some r₀ from afind_ainsert_self s.cache (ocs, reg) r₀]
  · rw [h0] at h
    simp only [Except.ok.injEq, Prod.mk.injEq] at h
    obtain ⟨h1, h2⟩ := h
    subst h1
    subst h2
    rw [h0]

/-- C6 (counterexample): two cached composition calls whose class-name
sequences contain the same names in different orders do not return the
same descriptor object — with `regABST` the two results are not even
structurally equal. -/
theorem C6_cache_key_order_sensitive :
    (Except.bind (build_composedtype_cached ⟨0, []⟩ regABST ["a", "b"])
      (fun p => Except.map (fun q => decide (p.1 = q.1))
        (build_composedtype_cached p.2 regABST ["b", "a"])))
      = .ok false := rfl

/-- C7 (amended): composing an empty sequence of class names does not
raise — `build_composedtype` leaves its accumulator at `None` and returns
it silently (there is no `InvalidSchema` error anywhere in the code). -/
theorem C7_empty_compose_ok_none (reg : Registry) (ctr : Nat) :
    build_composedtype reg [] ctr = .ok (none, ctr) := rfl

/-- C7 (counterexample): composing zero classes over the concrete
registry `regABST` silently returns the null descriptor `None` instead of
failing with an `InvalidSchema` error. -/
theorem C7_empty_compose_returns_none :
    build_composedtype regABST [] 0 = .ok (none, 0) := rfl

/-- C4 witness: over the depth-one registry `regFlat` the two composition
orders are run concretely and the must-set equivalence is read off at the
superior-contributed attribute `ms`. -/
theorem C4_order_independent_one_level_witness :
    ("ms" ∈ (PyType.mk 1 ["a", "s", "b"] ["ma", "ms", "mb"] ["maya"] ["s"]).must_fields ↔
     "ms" ∈ (PyType.mk 1 ["b", "a", "s"] ["mb", "ma", "ms"] ["maya"] ["s"]).must_fields) :=
  (C4_order_independent_one_level regFlat "a" "b"
    ⟨1, ["a"], ["ma"], ["maya"], ["s"]⟩ ⟨2, ["b"], ["mb"], [], []⟩
    (PyType.mk 1 ["a", "s", "b"] ["ma", "ms", "mb"] ["maya"] ["s"])
    (PyType.mk 1 ["b", "a", "s"] ["mb", "ma", "ms"] ["maya"] ["s"])
    0 0 2 2 rfl rfl (by decide) rfl rfl).1 "ms"

/-- C5 witness: the single-class composition over the chain registry is
run concretely; its must list is duplicate-free. -/
theorem C5_direct_superiors_only_witness :
    (PyType.mk 0 ["a", "b"] ["ma", "mb"] [] ["b", "c"]).must_fields.Nodup :=
  (C5_direct_superiors_only regChain "a" ⟨1, ["a"], ["ma"], [], ["b"]⟩
    (PyType.mk 0 ["a", "b"] ["ma", "mb"] [] ["b", "c"]) 0 1 rfl rfl).2 (by decide)

/-- C6 witness: a concrete cached composition is repeated with the same
ordered argument list and returns the identical stored descriptor and
unchanged cache state. -/
theorem C6_same_sequence_same_object_witness :
    build_composedtype_cached
      ⟨1, [((["a"], regChain), some (PyType.mk 0 ["a", "b"] ["ma", "mb"] [] ["b", "c"]))]⟩
      regChain ["a"]
    = .ok (some (PyType.mk 0 ["a", "b"] ["ma", "mb"] [] ["b", "c"]),
        ⟨1, [((["a"], regChain), some (PyType.mk 0 ["a", "b"] ["ma", "mb"] [] ["b", "c"]))]⟩) :=
  C6_same_sequence_same_object ⟨0, []⟩ regChain ["a"]
    (some (PyType.mk 0 ["a", "b"] ["ma", "mb"] [] ["b", "c"]))
    ⟨1, [((["a"], regChain), some (PyType.mk 0 ["a", "b"] ["ma", "mb"] [] ["b", "c"]))]⟩ rfl

/-- C1 (code bug): the spec scenario — compose person (must={cn,sn},
may={description}), hydrate with `{"cn":["Jane"],"sn":["Doe"]}`, then set
`description` to `"engineer"` in normal mode — raises `KeyError` inside
the property setter instead of producing a change-set: `populate` only
creates `_attrs` entries for hydrated attribute names, and the setter
reads `self._attrs[low]` before assigning, so a not-yet-present attribute
cannot be set at all. -/
theorem C1_scenario_raises_keyerror :
    Except.bind
      (populate personRec "cn=Jane,dc=example"
        [("cn", PyObj.list [PyV.str "Jane"]), ("sn", PyObj.list [PyV.str "Doe"])])
      (fun r => pset r "description" (PyObj.scalar (PyV.str "engineer")))
    = .error .keyError := rfl

/-- C2 (counterexample): a record freshly hydrated with a str-valued raw
attribute does NOT diff to a no-op: the old state keeps the raw `str`
values (list-valued old entries are not bytified) while the new state
bytifies them, so `old ≠ new` for the very attribute just hydrated. -/
theorem C2_str_values_not_noop :
    Except.bind (populate personRec "dn" [("cn", PyObj.list [PyV.str "Jane"])])
      get_old_and_current_state
    = .ok ([("cn", [PyV.str "Jane"])], [("cn", [PyV.bytes "Jane"])]) ∧
    ([("cn", [PyV.str "Jane"])] : List (String × List PyV)) ≠ [("cn", [PyV.bytes "Jane"])] :=
  ⟨rfl, by decide⟩

/-- C3 (counterexample): on a multi-valued attribute already present,
`set(name, ["x"], normal)` twice leaves the value list with `"x"` twice —
the normal-mode path is `list.__iadd__` extend, which does not
deduplicate, refuting the claimed deduplicated additive union. -/
theorem C3_no_dedup_on_normal_set :
    Except.bind (populate memberRec "dn" [("member", PyObj.list [PyV.bytes "m0"])])
      (fun r0 => Except.bind (pset r0 "member" (PyObj.list [PyV.str "x"]))
        (fun r1 => Except.map (fun r2 => (pget r2 "member").map LAttr.value)
          (pset r1 "member" (PyObj.list [PyV.str "x"]))))
    = .ok (some (PyObj.list [PyV.bytes "m0", PyV.str "x", PyV.str "x"])) ∧
    ¬ ([PyV.bytes "m0", PyV.str "x", PyV.str "x"] : List PyV).Nodup :=
  ⟨rfl, by decide⟩

/-- C8 (counterexample): the name `objectClass` is case-insensitively
outside the must/may sets of the descriptor and outside the virtual-field
exemption list, yet hydration succeeds — `populate` additionally exempts
`"objectclass"`, which the claim does not allow for. -/
theorem C8_objectclass_exempt :
    ¬ "objectclass" ∈ virtual_fields.map pyLower ∧
    ¬ "objectclass" ∈ (ocRec.may_fields ++ ocRec.must_fields).map pyLower ∧
    isOkB (populate ocRec "dn" [("objectClass", PyObj.list [PyV.bytes "person"])]) = true :=
  ⟨by decide, by decide, rfl⟩

/-- C9 (counterexample): after `mark_deleted()` a record is still freely
mutable — `populate` on the deleted record succeeds and installs the
attribute (the deleted flag merely stays set); no mutation path checks
`_deleted`. -/
theorem C9_deleted_record_still_mutable :
    Except.map (fun r => (r.deleted, (pget r "cn").isSome))
      (populate (mark_deleted personRec) "dn" [("cn", PyObj.list [PyV.bytes "Jane"])])
    = .ok (true, true) := rfl

/-- C9 (amended): `mark_deleted` sets the deleted flag and nothing ever
clears it — `populate`, the property setter and `mark_clean` all commute
with `mark_deleted` — but mutation is NOT blocked: each of those
operations behaves on a deleted record exactly as on the live one, with
the flag still set afterwards. -/
theorem C9_deleted_flag_permanent_no_guard (r : PloumRec) (dn : String)
    (attrs : List (String × PyObj)) (name : String) (v : PyObj) :
    (mark_deleted r).deleted = true ∧
    populate (mark_deleted r) dn attrs = Except.map mark_deleted (populate r dn attrs) ∧
    pset (mark_deleted r) name v = Except.map mark_deleted (pset r name v) ∧
    mark_clean (mark_deleted r) = mark_deleted (mark_clean r) := by
  refine ⟨rfl, ?_, ?_, rfl⟩
  · unfold populate mark_deleted
    rcases h : populateLoop r.must_fields r.may_fields r.attr_types r.attrs attrs with e | m
    · simp [Except.map, h]
    · simp [Except.map, h]
  · unfold pset mark_deleted
    by_cases hm : r.mode = "self_update"
    · simp only [hm, if_pos rfl]
      rcases h : afind r.attrs (pyLower name) with _ | a
      · simp [Except.map]
      · rcases h₂ : set_value a v with e | a₂ <;> simp [Except.map, h₂]
    · simp only [if_neg hm]
      rcases h : afind r.attrs (pyLower name) with _ | a
      · simp [Except.map]
      · rcases h₂ : attrAdd a v with e | a₂ <;> simp [Except.map, h₂]

/-- C10 (confirmed): an incoming attribute name whose lowercase form is
within the allowed set (it differs only in case from a schema alias) but
whose exact spelling is not a key of `attr_types` passes the
unknown-attribute check and then fails with the `KeyError` of the
`self.attr_types[i]` lookup, because `attr_types` is keyed only by the
exact alias spellings of the schema while the membership check lowercases both
sides. -/
theorem C10_case_mismatch_keyerror (must may : List String) (atys : List (String × Bool))
    (dn i : String) (j : PyObj) (rest : List (String × PyObj))
    (h1 : ¬ (pyLower i) ∈ virtual_fields.map pyLower)
    (h2 : (pyLower i) ∈ "objectclass" :: (may ++ must).map pyLower)
    (h3 : afind atys i = none) :
    populate (newRecord must may atys) dn ((i, j) :: rest) = .error .keyErrorAttrTypes := by
  have hloop : populateLoop must may atys [] ((i, j) :: rest) = .error .keyErrorAttrTypes := by
    unfold populateLoop
    rw [if_neg h1, if_neg (not_not_intro h2)]
    simp [afind, h3]
  show (populateLoop must may atys [] ((i, j) :: rest)).map _ = _
  rw [hloop]
  rfl

/-- C10 witness: descriptor with must `cn` and `attr_types` keyed by the
exact alias `cn`; hydrating the case-variant `CN` raises the
`attr_types` lookup `KeyError`. -/
theorem C10_case_mismatch_keyerror_witness :
    populate (newRecord ["cn"] [] [("cn", false)]) "dn"
      [("CN", PyObj.list [PyV.bytes "Jane"])] = .error .keyErrorAttrTypes :=
  C10_case_mismatch_keyerror ["cn"] [] [("cn", false)] "dn" "CN"
    (PyObj.list [PyV.bytes "Jane"]) [] (by decide) (by decide) rfl

theorem attrAdd_list_multi (a : LAttr) (xs v : List PyV)
    (hsv : a.single_value = false) (hval : a.value = PyObj.list xs) (hv : v ≠ []) :
    attrAdd a (PyObj.list v)
      = .ok (LAttr.mk a.single_value true (PyObj.list (xs ++ v)) (PyObj.list (xs ++ v))) := by
  unfold attrAdd
  rw [if_neg (by simp [hsv]), if_pos (by simp [pyTruthy, hv])]
  simp only [hval, debyteObj, iterObj, Except.map]

theorem set_value_list_multi (a : LAttr) (v : List PyV)
    (hsv : a.single_value = false) (hv : v ≠ []) :
    set_value a (PyObj.list v)
      = .ok (LAttr.mk a.single_value true (PyObj.list v) a.value) := by
  unfold set_value
  rw [if_neg (by simp [hsv]), if_pos (by simp [pyTruthy, hv])]
  simp only [iterObj, Except.map]

theorem pset_normal_found (r : PloumRec) (name : String) (a a₂ : LAttr) (v : PyObj)
    (hns : ¬ r.mode = "self_update")
    (hfind : afind r.attrs (pyLower name) = some a)
    (hadd : attrAdd a v = .ok a₂) :
    pset r name v = .ok { r with attrs := ainsert r.attrs (pyLower name) a₂ } := by
  unfold pset
  rw [if_neg hns]
  simp only [hfind, hadd, Except.map]

theorem pset_self_found (r : PloumRec) (name : String) (a a₂ : LAttr) (v : PyObj)
    (hs : r.mode = "self_update")
    (hfind : afind r.attrs (pyLower name) = some a)
    (hset : set_value a v = .ok a₂) :
    pset r name v = .ok { r with attrs := ainsert r.attrs (pyLower name) a₂ } := by
  unfold pset
  rw [if_pos hs]
  simp only [hfind, hset, Except.map]

/-- C3 (amended): for a multi-valued attribute already present on the
record, setting list values in normal mode routes through
`LDAPAttribute.__add__`, whose multi-value branch is an in-place
`extend`: after `set(name, v1, normal)` then `set(name, v2, normal)` the
value list is the old list followed by the elements of `v1` and then of
`v2`, verbatim — both values are present but nothing is deduplicated
(and a str scalar would be appended character-wise).  The same two sets
in `self_update` mode route through `set_value`, which installs a fresh
list extended from the argument, so only the elements of `v2` remain
(verbatim overwrite). -/
theorem C3_list_set_semantics (r : PloumRec) (name : String) (a : LAttr)
    (xs v1 v2 : List PyV)
    (hmode : r.mode = "normal")
    (hget : pget r name = some a)
    (hsv : a.single_value = false)
    (hval : a.value = PyObj.list xs)
    (h1 : v1 ≠ []) (h2 : v2 ≠ []) :
    Except.map (fun r₂ => (pget r₂ name).map LAttr.value)
      (Except.bind (pset r name (PyObj.list v1))
        (fun r1 => pset r1 name (PyObj.list v2)))
      = .ok (some (PyObj.list (xs ++ v1 ++ v2))) ∧
    Except.map (fun r₂ => (pget r₂ name).map LAttr.value)
      (Except.bind (pset { r with mode := "self_update" } name (PyObj.list v1))
        (fun r1 => pset r1 name (PyObj.list v2)))
      = .ok (some (PyObj.list v2)) := by
  have hns : ¬ r.mode = "self_update" := by rw [hmode]; decide
  have hfind : afind r.attrs (pyLower name) = some a := hget
  constructor
  · have s1 := pset_normal_found r name a
      (LAttr.mk a.single_value true (PyObj.list (xs ++ v1)) (PyObj.list (xs ++ v1)))
      (PyObj.list v1) hns hfind (attrAdd_list_multi a xs v1 hsv hval h1)
    have s2 := pset_normal_found
      { r with attrs := (ainsert r.attrs (pyLower name)
          (LAttr.mk a.single_value true (PyObj.list (xs ++ v1)) (PyObj.list (xs ++ v1)))) }
      name
      (LAttr.mk a.single_value true (PyObj.list (xs ++ v1)) (PyObj.list (xs ++ v1)))
      (LAttr.mk a.single_value true (PyObj.list (xs ++ v1 ++ v2)) (PyObj.list (xs ++ v1 ++ v2)))
      (PyObj.list v2) hns (afind_ainsert_self _ _ _)
      (attrAdd_list_multi _ (xs ++ v1) v2 hsv rfl h2)
    rw [s1]
    simp only [Except.bind]
    rw [s2]
    simp only [Except.map, pget]
    rw [afind_ainsert_self]
    rfl
  · have hs : ({ r with mode := "self_update" } : PloumRec).mode = "self_update" := rfl
    have s1 := pset_self_found { r with mode := "self_update" } name a
      (LAttr.mk a.single_value true (PyObj.list v1) a.value)
      (PyObj.list v1) hs hfind (set_value_list_multi a v1 hsv h1)
    have s2 := pset_self_found
      { r with
          mode := "self_update"
          attrs := (ainsert r.attrs (pyLower name)
            (LAttr.mk a.single_value true (PyObj.list v1) a.value)) }
      name
      (LAttr.mk a.single_value true (PyObj.list v1) a.value)
      (LAttr.mk a.single_value true (PyObj.list v2) (PyObj.list v1))
      (PyObj.list v2) rfl (afind_ainsert_self _ _ _)
      (set_value_list_multi _ v2 hsv h2)
    rw [s1]
    simp only [Except.bind]
    rw [s2]
    simp only [Except.map, pget]
    rw [afind_ainsert_self]
    rfl

/-- C3 witness: the semantics above evaluated on a hydrated record with
`member = [b"m0"]`, list values `["x"]` then `["y"]`: normal mode leaves
`[b"m0", "x", "y"]`, self_update mode leaves `["y"]`. -/
theorem C3_list_set_semantics_witness :
    Except.map (fun r₂ => (pget r₂ "member").map LAttr.value)
      (Except.bind (pset memberHydrated "member" (PyObj.list [PyV.str "x"]))
        (fun r1 => pset r1 "member" (PyObj.list [PyV.str "y"])))
      = .ok (some (PyObj.list [PyV.bytes "m0", PyV.str "x", PyV.str "y"])) ∧
    Except.map (fun r₂ => (pget r₂ "member").map LAttr.value)
      (Except.bind (pset { memberHydrated with mode := "self_update" } "member"
          (PyObj.list [PyV.str "x"]))
        (fun r1 => pset r1 "member" (PyObj.list [PyV.str "y"])))
      = .ok (some (PyObj.list [PyV.str "y"])) :=
  C3_list_set_semantics memberHydrated "member"
    ⟨false, false, PyObj.list [PyV.bytes "m0"], PyObj.list [PyV.bytes "m0"]⟩
    [PyV.bytes "m0"] [PyV.str "x"] [PyV.str "y"]
    rfl rfl rfl rfl (by decide) (by decide)

theorem populateLoop_cons (must may : List String) (atys : List (String × Bool))
    (m : List (String × LAttr)) (i : String) (j : PyObj) (rest : List (String × PyObj)) :
    populateLoop must may atys m ((i, j) :: rest)
      = (if pyLower i ∈ virtual_fields.map pyLower then
          populateLoop must may atys m rest
        else if ¬ (pyLower i ∈ "objectclass" :: (may ++ must).map pyLower) then
          .error .unknownAttribute
        else
          match afind m (pyLower i) with
          | some a =>
            match attrAdd a j with
            | .error e => .error e
            | .ok a₂ => populateLoop must may atys (ainsert m (pyLower i) (setClean a₂)) rest
          | none =>
            match afind atys i with
            | none => .error .keyErrorAttrTypes
            | some single =>
              match attrAdd (attrNew single) j with
              | .error e => .error e
              | .ok a₂ =>
                populateLoop must may atys (ainsert m (pyLower i) (setClean a₂)) rest) := rfl

theorem populateLoop_bad_error (must may : List String) (atys : List (String × Bool)) :
    ∀ (attrs : List (String × PyObj)) (m : List (String × LAttr)),
      (∃ p ∈ attrs, badName must may p.1) →
      ∃ e, populateLoop must may atys m attrs = .error e := by
  intro attrs
  induction attrs with
  | nil =>
    rintro m ⟨p, hp, _⟩
    simp at hp
  | cons q rest ih =>
    rintro m ⟨p, hp, hbad⟩
    obtain ⟨i, j⟩ := q
    by_cases hv : pyLower i ∈ virtual_fields.map pyLower
    · rw [populateLoop_cons, if_pos hv]
      refine ih m ⟨p, ?_, hbad⟩
      rcases List.mem_cons.mp hp with h1 | h1
      · exfalso
        subst h1
        exact hbad.1 hv
      · exact h1
    · by_cases ha : pyLower i ∈ "objectclass" :: (may ++ must).map pyLower
      · rcases List.mem_cons.mp hp with h1 | h1
        · exfalso
          subst h1
          exact hbad.2 ha
        · rcases hf : afind m (pyLower i) with _ | a
          · rcases hat : afind atys i with _ | single
            · refine ⟨.keyErrorAttrTypes, ?_⟩
              rw [populateLoop_cons, if_neg hv, if_neg (not_not_intro ha)]
              simp only [hf, hat]
            · rcases hadd : attrAdd (attrNew single) j with e | a₂
              · refine ⟨e, ?_⟩
                rw [populateLoop_cons, if_neg hv, if_neg (not_not_intro ha)]
                simp only [hf, hat, hadd]
              · obtain ⟨e, he⟩ := ih (ainsert m (pyLower i) (setClean a₂)) ⟨p, h1, hbad⟩
                refine ⟨e, ?_⟩
                rw [populateLoop_cons, if_neg hv, if_neg (not_not_intro ha)]
                simp only [hf, hat, hadd]
                exact he
          · rcases hadd : attrAdd a j with e | a₂
            · refine ⟨e, ?_⟩
              rw [populateLoop_cons, if_neg hv, if_neg (not_not_intro ha)]
              simp only [hf, hadd]
            · obtain ⟨e, he⟩ := ih (ainsert m (pyLower i) (setClean a₂)) ⟨p, h1, hbad⟩
              refine ⟨e, ?_⟩
              rw [populateLoop_cons, if_neg hv, if_neg (not_not_intro ha)]
              simp only [hf, hadd]
              exact he
      · refine ⟨.unknownAttribute, ?_⟩
        rw [populateLoop_cons, if_neg hv, if_pos ha]

/-- C8 (amended): hydration rejects any incoming attribute name that is
case-insensitively outside the virtual-field exemption list, not
`objectclass`, and outside the lowercased must/may sets: when such a name
occurs anywhere in the incoming items, `populate` raises (it never
silently drops the attribute), and when that name is the first item the
error is precisely the unknown-attribute `KeyError` the spec calls
`UnknownAttribute`.  (The claim as frozen omits the `objectclass`
exemption, and an earlier item can fail first with a different error —
see the counterexample.) -/
theorem C8_unknown_attribute_fails :
    (∀ (r : PloumRec) (dn : String) (attrs : List (String × PyObj)) (p : String × PyObj),
      p ∈ attrs → badName r.must_fields r.may_fields p.1 →
      ∃ e, populate r dn attrs = .error e) ∧
    (∀ (r : PloumRec) (dn i : String) (j : PyObj) (rest : List (String × PyObj)),
      badName r.must_fields r.may_fields i →
      populate r dn ((i, j) :: rest) = .error .unknownAttribute) := by
  constructor
  · intro r dn attrs p hp hbad
    obtain ⟨e, he⟩ := populateLoop_bad_error r.must_fields r.may_fields r.attr_types
      attrs r.attrs ⟨p, hp, hbad⟩
    refine ⟨e, ?_⟩
    unfold populate
    rw [he]
    rfl
  · intro r dn i j rest hbad
    have hloop : populateLoop r.must_fields r.may_fields r.attr_types r.attrs
        ((i, j) :: rest) = .error .unknownAttribute := by
      rw [populateLoop_cons, if_neg hbad.1, if_pos hbad.2]
    unfold populate
    rw [hloop]
    rfl

/-- C8 witness: a record with must `{cn}` rejects the unknown first
attribute `foo` with the unknown-attribute error. -/
theorem C8_unknown_attribute_fails_witness :
    populate (newRecord ["cn"] [] [("cn", false)]) "dn"
      [("foo", PyObj.list [PyV.bytes "v"])] = .error .unknownAttribute :=
  C8_unknown_attribute_fails.2 (newRecord ["cn"] [] [("cn", false)]) "dn" "foo"
    (PyObj.list [PyV.bytes "v"]) [] (by decide)

theorem goodAttr_single_val (a : LAttr) (h : goodAttr a) (hs : a.single_value = true) :
    ∃ s, a.value = PyObj.scalar (PyV.str s) := by
  unfold goodAttr at h
  rw [hs] at h
  simpa using h

theorem goodAttr_multi_val (a : LAttr) (h : goodAttr a) (hs : a.single_value = false) :
    ∃ cs, a.value = PyObj.list cs ∧ ∀ v ∈ cs, isBytesV v = true := by
  unfold goodAttr at h
  rw [hs] at h
  simpa using h

theorem goodAttr_single (a : LAttr) (hs : a.single_value = true)
    (h : ∃ s, a.value = PyObj.scalar (PyV.str s)) : goodAttr a := by
  unfold goodAttr
  rw [hs]
  simpa using h

theorem goodAttr_multi (a : LAttr) (hs : a.single_value = false)
    (h : ∃ cs, a.value = PyObj.list cs ∧ ∀ v ∈ cs, isBytesV v = true) : goodAttr a := by
  unfold goodAttr
  rw [hs]
  simpa using h

theorem goodAttr_setClean (a : LAttr) (h : goodAttr a) : goodAttr (setClean a) := h

theorem bytify_of_bytes (v : PyV) (h : isBytesV v = true) : bytify v = v := by
  cases v with
  | bytes s => rfl
  | none => simp [isBytesV] at h
  | str s => simp [isBytesV] at h
  | int n => simp [isBytesV] at h

theorem map_bytify_bytes (xs : List PyV) (h : ∀ v ∈ xs, isBytesV v = true) :
    xs.map bytify = xs := by
  induction xs with
  | nil => rfl
  | cons v xs ih =>
    rw [List.map_cons, bytify_of_bytes v (h v (List.mem_cons_self _ _)),
      ih (fun w hw => h w (List.mem_cons_of_mem _ hw))]

theorem attrAdd_byteList (a : LAttr) (bs : List PyV) (hbs : bs ≠ [])
    (hall : ∀ v ∈ bs, isBytesV v = true)
    (hml : a.single_value = false →
      ∃ cs, a.value = PyObj.list cs ∧ ∀ v ∈ cs, isBytesV v = true) :
    ∃ a₂, attrAdd a (PyObj.list bs) = .ok a₂ ∧ goodAttr a₂ ∧
      a₂.single_value = a.single_value := by
  by_cases hs : a.single_value
  · rcases bs with _ | ⟨b₀, bs₂⟩
    · exact absurd rfl hbs
    · have hb₀ := hall b₀ (List.mem_cons_self _ _)
      rcases b₀ with _ | s | s | n
      · simp [isBytesV] at hb₀
      · simp [isBytesV] at hb₀
      · refine ⟨LAttr.mk a.single_value true (PyObj.scalar (PyV.str s)) a.value, ?_, ?_, rfl⟩
        · unfold attrAdd
          rw [if_pos hs]
          rfl
        · exact goodAttr_single _ hs ⟨s, rfl⟩
      · simp [isBytesV] at hb₀
  · have hs₂ : a.single_value = false := by simpa using hs
    obtain ⟨cs, hval, hcs⟩ := hml hs₂
    refine ⟨_, attrAdd_list_multi a cs bs hs₂ hval hbs, ?_, rfl⟩
    refine goodAttr_multi _ hs₂ ⟨cs ++ bs, rfl, ?_⟩
    intro v hv
    rcases List.mem_append.mp hv with h | h
    · exact hcs v h
    · exact hall v h

theorem populateLoop_good (must may : List String) (atys : List (String × Bool)) :
    ∀ (attrs : List (String × PyObj)) (m m₂ : List (String × LAttr)),
      (∀ p ∈ attrs, isByteList p.2) →
      (∀ p ∈ m, goodAttr p.2) →
      (akeys m).Nodup →
      populateLoop must may atys m attrs = .ok m₂ →
      (∀ p ∈ m₂, goodAttr p.2) ∧ (akeys m₂).Nodup := by
  intro attrs
  induction attrs with
  | nil =>
    intro m m₂ _ hg hn h
    rw [show populateLoop must may atys m [] = .ok m from rfl, Except.ok.injEq] at h
    subst h
    exact ⟨hg, hn⟩
  | cons q rest ih =>
    intro m m₂ hb hg hn h
    obtain ⟨i, j⟩ := q
    have hbrest : ∀ p ∈ rest, isByteList p.2 := fun p hp => hb p (List.mem_cons_of_mem _ hp)
    have hj : isByteList j := hb (i, j) (List.mem_cons_self _ _)
    rcases j with v | bs
    · exact hj.elim
    have hbs : bs ≠ [] := hj.1
    have hall : ∀ v ∈ bs, isBytesV v = true := hj.2
    by_cases hv : pyLower i ∈ virtual_fields.map pyLower
    · rw [populateLoop_cons, if_pos hv] at h
      exact ih m m₂ hbrest hg hn h
    · by_cases ha : pyLower i ∈ "objectclass" :: (may ++ must).map pyLower
      · rw [populateLoop_cons, if_neg hv, if_neg (not_not_intro ha)] at h
        rcases hf : afind m (pyLower i) with _ | a
        · simp only [hf] at h
          rcases hat : afind atys i with _ | single
          · simp only [hat] at h
            cases h
          · simp only [hat] at h
            have hml : (attrNew single).single_value = false →
                ∃ cs, (attrNew single).value = PyObj.list cs ∧
                  ∀ v ∈ cs, isBytesV v = true := by
              intro hsf
              cases single
              · exact ⟨[], rfl, by simp⟩
              · simp [attrNew] at hsf
            obtain ⟨a₂, ha₂, hgood₂, _⟩ := attrAdd_byteList (attrNew single) bs hbs hall hml
            simp only [ha₂] at h
            refine ih _ m₂ hbrest ?_ (akeys_nodup_ainsert m _ _ hn) h
            intro p hp
            rcases mem_ainsert _ _ _ p hp with h1 | h1
            · rw [h1]
              exact goodAttr_setClean _ hgood₂
            · exact hg p h1
        · simp only [hf] at h
          have hga : goodAttr a := hg (pyLower i, a) (afind_some_mem m (pyLower i) a hf)
          obtain ⟨a₂, ha₂, hgood₂, _⟩ := attrAdd_byteList a bs hbs hall
            (fun hsf => goodAttr_multi_val a hga hsf)
          simp only [ha₂] at h
          refine ih _ m₂ hbrest ?_ (akeys_nodup_ainsert m _ _ hn) h
          intro p hp
          rcases mem_ainsert _ _ _ p hp with h1 | h1
          · rw [h1]
            exact goodAttr_setClean _ hgood₂
          · exact hg p h1
      · rw [populateLoop_cons, if_neg hv, if_pos ha] at h
        cases h

theorem stateLoop_noop (m : List (String × LAttr)) (hm : m ≠ []) :
    ∀ l : List (String × LAttr),
      (∀ p ∈ l, afind m p.1 = some p.2 ∧ goodAttr p.2) →
      ∃ st, stateLoop (some m) l = .ok (st, st) := by
  have htrue : baseTruthy (some m) = true := by simp [baseTruthy, hm]
  intro l
  induction l with
  | nil => exact fun _ => ⟨[], rfl⟩
  | cons q rest ih =>
    intro hl
    obtain ⟨k, v⟩ := q
    obtain ⟨hfind, hgood⟩ := hl (k, v) (List.mem_cons_self _ _)
    obtain ⟨st, hst⟩ := ih (fun p hp => hl p (List.mem_cons_of_mem _ hp))
    have heq : (match v.value with | PyObj.scalar s => [bytify s] | PyObj.list xs => xs)
        = (match v.value with
           | PyObj.scalar s => [bytify s]
           | PyObj.list xs => xs.map bytify) := by
      by_cases hs : v.single_value
      · obtain ⟨s, hv⟩ := goodAttr_single_val v hgood hs
        rw [hv]
      · obtain ⟨cs, hv, hcs⟩ := goodAttr_multi_val v hgood (by simpa using hs)
        rw [hv]
        simp only
        rw [map_bytify_bytes cs hcs]
    refine ⟨(k, match v.value with
        | PyObj.scalar s => [bytify s] | PyObj.list xs => xs) :: st, ?_⟩
    simp only [stateLoop, htrue, if_true, Option.getD, hfind, hst]
    rw [heq]

/-- C2 (amended): a record freshly hydrated via `populate` whose raw
attribute values all have the shape an LDAP search returns — nonempty
lists of byte strings — produces a no-op modify change-set: the kind is
`"modify"` and the old state equals the new state componentwise.  (For
other value shapes the diff is not empty: list-valued old entries are
not bytified while new entries are — see the counterexample.) -/
theorem C2_bytes_hydration_noop_changeset (must may : List String)
    (atys : List (String × Bool)) (dn : String)
    (attrs : List (String × PyObj)) (r : PloumRec)
    (hbytes : ∀ p ∈ attrs, isByteList p.2)
    (h : populate (newRecord must may atys) dn attrs = .ok r) :
    Except.map (fun c => decide (c.1 = "modify") && decide (c.2.1 = c.2.2))
      (build_changeset r) = .ok true := by
  unfold populate at h
  rcases hl : populateLoop must may atys [] attrs with e | m
  · rw [show populateLoop (newRecord must may atys).must_fields
        (newRecord must may atys).may_fields (newRecord must may atys).attr_types
        (newRecord must may atys).attrs attrs = .error e from hl] at h
    cases h
  · rw [show populateLoop (newRecord must may atys).must_fields
        (newRecord must may atys).may_fields (newRecord must may atys).attr_types
        (newRecord must may atys).attrs attrs = .ok m from hl] at h
    simp only [Except.map, Except.ok.injEq] at h
    subst h
    obtain ⟨hgood, hnodup⟩ := populateLoop_good must may atys attrs [] m hbytes
      (by intro p hp; simp at hp) (by simp [akeys]) hl
    by_cases hm : m = []
    · subst hm
      rfl
    · obtain ⟨st, hst⟩ := stateLoop_noop m hm m (fun p hp =>
        ⟨afind_of_mem m hnodup p.1 p.2 hp, hgood p hp⟩)
      have hb : build_changeset
          { newRecord must may atys with
              dn := some dn, already_exists := true, attrs := m, base_state := some m }
          = .ok ("modify", st, st) := by
        show Except.map _ (stateLoop (some m) m) = _
        rw [hst]
        rfl
      rw [hb]
      simp only [Except.map, Except.ok.injEq, Bool.and_eq_true, decide_eq_true_eq]
      exact ⟨trivial, trivial⟩

/-- C2 witness: hydrating the person descriptor with
`{"cn":[b"Jane"],"sn":[b"Doe"]}` yields a record whose change-set is the
no-op modify pair. -/
theorem C2_bytes_hydration_noop_changeset_witness :
    Except.map (fun c => decide (c.1 = "modify") && decide (c.2.1 = c.2.2))
      (build_changeset
        { must_fields := ["cn", "sn"], may_fields := ["description"]
          attr_types := [("cn", false), ("sn", false), ("description", false)]
          dn := some "dn", already_exists := true
          attrs := [("cn", ⟨false, false, PyObj.list [PyV.bytes "Jane"],
                      PyObj.list [PyV.bytes "Jane"]⟩),
                    ("sn", ⟨false, false, PyObj.list [PyV.bytes "Doe"],
                      PyObj.list [PyV.bytes "Doe"]⟩)]
          deleted := false
          base_state := some [("cn", ⟨false, false, PyObj.list [PyV.bytes "Jane"],
                      PyObj.list [PyV.bytes "Jane"]⟩),
                    ("sn", ⟨false, false, PyObj.list [PyV.bytes "Doe"],
                      PyObj.list [PyV.bytes "Doe"]⟩)]
          mode := "normal" }) = .ok true :=
  C2_bytes_hydration_noop_changeset ["cn", "sn"] ["description"]
    [("cn", false), ("sn", false), ("description", false)] "dn"
    [("cn", PyObj.list [PyV.bytes "Jane"]), ("sn", PyObj.list [PyV.bytes "Doe"])]
    _ (by decide) rfl
